import Mathlib

/-!
Verification development for the airfoil-to-stl wing generator (src/main.rs).

Part I models the wire builder `wire_from_path`, the airfoil-data parsing
loop of `main`, the connecting-surface rule of `extrude_then_transform`,
the control flow of `main`, and the binary STL serialization layout.
Part II models, over exact rationals, the cgmath matrix arithmetic by which
`main` builds the tip transform.
-/

/-- A 2D profile point, represented by the IEEE-754 bit patterns of its two
f64 coordinates.  `wire_from_path` (main.rs lines 36-86) distinguishes points
only through the dedup key `(x.to_bits(), y.to_bits())` (line 40), and f64
values correspond bijectively to their bit patterns, so the pair of bit
patterns is a faithful domain for the wire builder. -/
structure P2 where
  xBits : UInt64
  yBits : UInt64
  deriving DecidableEq

/-- A truck `Vertex` as created by `builder::vertex` (main.rs line 44): a
fresh topological entity (identified by an allocation id) carrying its point.
truck vertex equality (`start != end`, line 81) is identity of the entity,
which structural equality of this representation captures, because each id is
allocated at most once per run. -/
structure Vtx where
  id : Nat
  pt : P2
  deriving DecidableEq

/-- The curve carried by an edge: `builder::line` makes a Line, and
`builder::bezier` makes a Bezier with the given intermediate control points
lifted to z = 0 (main.rs lines 56, 61-65, 70-74). -/
inductive EdgeCurve where
  | line : EdgeCurve
  | bezier : List P2 → EdgeCurve
  deriving DecidableEq

/-- A truck `Edge` with its front and back vertices and its curve. -/
structure Edge where
  front : Vtx
  back : Vtx
  curve : EdgeCurve
  deriving DecidableEq

/-- A truck `Wire`: the ordered edge list produced by `edges.into()`
(main.rs line 85). -/
abbrev Wire := List Edge

/-- A kurbo `PathSeg` as matched by the loop at main.rs lines 52-77. -/
inductive PathSeg where
  | line : P2 → P2 → PathSeg
  | quad : P2 → P2 → P2 → PathSeg
  | cubic : P2 → P2 → P2 → P2 → PathSeg
  deriving DecidableEq

/-- The vertex dedup table (`verts: &mut HashMap<(u64,u64), Vertex>`) plus
the id counter for fresh vertex allocation.  The HashMap is only read and
inserted by key, so an association list models it. -/
structure VertTable where
  table : List (P2 × Vtx)
  next : Nat
  deriving DecidableEq

/-- Association-list lookup standing for `verts.get(&k)` (main.rs line 41). -/
def vertLookup : List (P2 × Vtx) → P2 → Option Vtx
  | [], _ => none
  | kv :: rest, k => if kv.1 = k then some kv.2 else vertLookup rest k

/-- The `vert` closure of `wire_from_path` (main.rs lines 37-48): reuse the
cached vertex for a bit-identical point, else allocate and cache a fresh one. -/
def vert (s : VertTable) (p : P2) : Vtx × VertTable :=
  match vertLookup s.table p with
  | some v => (v, s)
  | none => (⟨s.next, p⟩, ⟨(p, ⟨s.next, p⟩) :: s.table, s.next + 1⟩)

/-- One iteration of the segment loop (main.rs lines 52-78).  In the source,
`let end = vert(p_end)` runs first; then `last.unwrap_or(vert(p0))` runs,
and Rust's `unwrap_or` evaluates `vert(p0)` eagerly even when `last` is
`Some`, so both `vert` calls thread through the table in that order.  The
state is the dedup table together with `last`. -/
def segStep (st : VertTable × Option Vtx) : PathSeg → Edge × (VertTable × Option Vtx)
  | .line p0 p1 =>
    let r1 := vert st.1 p1
    let r0 := vert r1.2 p0
    (⟨st.2.getD r0.1, r1.1, .line⟩, (r0.2, some r1.1))
  | .quad p0 p1 p2 =>
    let r1 := vert st.1 p2
    let r0 := vert r1.2 p0
    (⟨st.2.getD r0.1, r1.1, .bezier [p1]⟩, (r0.2, some r1.1))
  | .cubic p0 p1 p2 p3 =>
    let r1 := vert st.1 p3
    let r0 := vert r1.2 p0
    (⟨st.2.getD r0.1, r1.1, .bezier [p1, p2]⟩, (r0.2, some r1.1))

/-- The whole segment loop: the edge list accumulated by `edges.push(..)`
together with the final state. -/
def buildEdges : List PathSeg → (VertTable × Option Vtx) → List Edge × (VertTable × Option Vtx)
  | [], st => ([], st)
  | seg :: rest, st =>
    let r := segStep st seg
    let r2 := buildEdges rest r.2
    (r.1 :: r2.1, r2.2)

/-- The one abort `wire_from_path` itself can raise: `edges[0]` (main.rs
line 80) on an empty edge list is an index-out-of-bounds abort. -/
inductive BuildErr where
  | indexOutOfBounds : BuildErr
  deriving DecidableEq

/-- The closure step of main.rs lines 80-84: with
`(start, end) = (edges[0].front(), edges.last().unwrap().back())`, push a
closing line `builder::line(end, start)` when `start != end`. -/
def wireClose : List Edge → Except BuildErr Wire
  | [] => .error .indexOutOfBounds
  | e0 :: rest =>
    let endV := ((e0 :: rest).getLast (List.cons_ne_nil e0 rest)).back
    if e0.front = endV then .ok (e0 :: rest)
    else .ok ((e0 :: rest) ++ [⟨endV, e0.front, .line⟩])

/-- The initial state: `main` (line 170) passes a fresh empty HashMap, and
`last` starts as `None` (line 51). -/
def initSt : VertTable × Option Vtx := (⟨[], 0⟩, none)

/-- `wire_from_path` (main.rs lines 36-86). -/
def wireFromPath (segs : List PathSeg) : Except BuildErr Wire :=
  wireClose (buildEdges segs initSt).1

/-- First vertex of a wire, `wire.front_vertex()` in truck terms. -/
def wireFront (w : Wire) : Option Vtx := w.head?.map Edge.front

/-- Last vertex of a wire, `wire.back_vertex()` in truck terms. -/
def wireBack (w : Wire) : Option Vtx := w.getLast?.map Edge.back

/-- All vertices occurring in a wire, front and back of every edge. -/
def wireVertices (w : Wire) : List Vtx := (w.map (fun e => [e.front, e.back])).flatten

/-- Well-formed dedup table: keys are not duplicated (lookup before insert
guarantees this) and each cached vertex carries exactly the point it is keyed
by. -/
def TblWF (t : List (P2 × Vtx)) : Prop :=
  (t.map Prod.fst).Nodup ∧ ∀ kv ∈ t, (kv.2).pt = kv.1

/-- Invariant of the loop state `(verts, last)`: the table is well-formed and
the `last` vertex, when present, is cached in the table. -/
def StWF (st : VertTable × Option Vtx) : Prop :=
  TblWF st.1.table ∧ ∀ v, st.2 = some v → (v.pt, v) ∈ st.1.table

/-- The token separators of the data loop: `line.split_terminator(&[' ', '\t'])`
(main.rs line 145). -/
def isSep (c : Char) : Bool := c = ' ' || c = '\t'

/-- `line.trim_start().trim_end()` (main.rs line 139), modelled on the
character list.  Rust strips Unicode White_Space; for the ASCII whitespace
occurring in airfoil data files this coincides with `Char.isWhitespace`. -/
def trimChars (cs : List Char) : List Char :=
  ((cs.dropWhile Char.isWhitespace).reverse.dropWhile Char.isWhitespace).reverse

/-- Splitting a line at separator characters, keeping empty pieces, as
`split` does.  `split_terminator` differs from `split` only by dropping one
trailing empty piece, and every empty piece is discarded by the `s == ""`
check inside the filter_map (main.rs lines 147-149), so the two agree after
that filter. -/
def splitSep (cs : List Char) : List (List Char) :=
  cs.foldr
    (fun c acc =>
      if isSep c then [] :: acc
      else
        match acc with
        | t :: rest => (c :: t) :: rest
        | [] => [[c]])
    [[]]

/-- The abort of the data loop: `panic!("expected 2 decimal datapoints per
line, got {} on line {}", ..)` (main.rs lines 159-164), carrying the count
and the line index. -/
inductive ParseAbort where
  | expectedTwoNumbers : Nat → Nat → ParseAbort
  deriving DecidableEq

/-- The `filter_map` of main.rs lines 146-156 applied to the split pieces:
empty pieces yield `None`, and each remaining piece is handed to the f64
parser, whose failures yield `None` and are hence silently dropped.  The
external numeric parser (out of the core per the spec) is the parameter
`pn`, standing for `str::parse::<f64>` composed with `to_bits` for our
bit-pattern representation of f64 values. -/
def numbersOf (pn : List Char → Option UInt64) (toks : List (List Char)) : List UInt64 :=
  toks.filterMap (fun s => if s = [] then none else pn s)

/-- Handling of one enumerated line with index at least 2 (main.rs lines
138-166): trim, skip if empty or starting with a hash, tokenize, parse,
abort unless exactly two numbers remain, else produce the point.  `none`
means the line is skipped. -/
def dataLine (pn : List Char → Option UInt64) (i : Nat) (raw : List Char) :
    Option (Except ParseAbort P2) :=
  let line := trimChars raw
  if line = [] ∨ line.head? = some '#' then none
  else
    match numbersOf pn (splitSep line) with
    | [a, b] => some (.ok ⟨a, b⟩)
    | ns => some (.error (.expectedTwoNumbers ns.length i))

/-- The enumerated line loop of main.rs lines 134-167: lines with index 0
and 1 are skipped by `if i < 2 continue` before their content is looked at;
later lines contribute points through `dataLine`.  Reading the input file
is external; the model receives the lines. -/
def collectPoints (pn : List Char → Option UInt64) : Nat → List (List Char) →
    Except ParseAbort (List P2)
  | _, [] => .ok []
  | i, l :: rest =>
    if i < 2 then collectPoints pn (i + 1) rest
    else
      match dataLine pn i l with
      | none => collectPoints pn (i + 1) rest
      | some (.error e) => .error e
      | some (.ok p) => (collectPoints pn (i + 1) rest).map (p :: ·)

/-- The trailing-edge anchor `PathEl::MoveTo((1., 0.))` (main.rs lines
131-133), as f64 bit patterns: 1.0 has bits 0x3FF0000000000000 and 0.0 has
bits 0. -/
def anchor : P2 := ⟨0x3FF0000000000000, 0⟩

/-- kurbo's `path.segments()` for the path `main` builds: one `MoveTo`
followed by only `LineTo` elements (main.rs lines 131-133, 166) yields one
line segment per `LineTo`, each starting at the previous point. -/
def lineToSegs : P2 → List P2 → List PathSeg
  | _, [] => []
  | start, p :: rest => .line start p :: lineToSegs p rest

/-- The abort of the connecting-surface rule: the `_ => unreachable!()` arm
of main.rs line 121.  It is a process abort, not a recoverable error value;
the program has no GeometryError kind. -/
inductive SweepAbort where
  | unreachableBranch : SweepAbort
  deriving DecidableEq

/-- The connecting-surface rule of `extrude_then_transform` (main.rs lines
115-122): a (Line, Line) pair builds the analytic `Surface::Plane`; every
other pairing of curve variants falls into the `unreachable!()` arm.  Only
the curve variants decide the branch, so the model takes the variants. -/
def connectCurves : EdgeCurve → EdgeCurve → Except SweepAbort Unit
  | .line, .line => .ok ()
  | _, _ => .error .unreachableBranch

/-- The connecting-surface rule applied along a swept wire: the sweep pairs
each boundary curve with its transformed copy, and truck's `transformed`
preserves the curve variant, so each pair has the variant of the original
edge curve twice. -/
def sweepSurfaces : List Edge → Except SweepAbort Unit
  | [] => .ok ()
  | e :: rest =>
    match connectCurves e.curve e.curve with
    | .error a => .error a
    | .ok _ => sweepSurfaces rest

/-- The numeric configuration taken from the command line (main.rs lines
11-34), in declaration order.  The values are exact rationals; `main` never
branches on them (see `runMain`). -/
structure Config where
  semiWingspan : ℚ
  sweep : ℚ
  rootChord : ℚ
  tipChord : ℚ
  deriving DecidableEq

/-- Construction milestones of one run of `main`, in program order. -/
inductive Event where
  | wireBuilt
  | profileScaled
  | planeAttached
  | sweepDone
  | solidBuilt
  | fileCreated
  | stlBytesReady
  | bytesWritten
  deriving DecidableEq

/-- The ways a run of `main` aborts.  Every failure in main.rs is a process
abort (`panic!`, `expect`, `unwrap`, `unreachable!`); no error kind of the
spec's section 7 (DomainError, ProfileError, GeometryError, ToleranceError)
exists in the program. -/
inductive RunErr where
  | lineParse : ParseAbort → RunErr
  | wireIndex : BuildErr → RunErr
  | attachPlaneFailed : RunErr
  | sweepUnreachable : RunErr
  | popBoundaryFailed : RunErr
  | solidNewFailed : RunErr
  | createFileFailed : RunErr
  | tessellateFailed : RunErr
  | writeFailed : RunErr
  deriving DecidableEq

/-- Outcomes of the external truck and file-system operations `main` invokes,
supplied as parameters of the embedding: `try_attach_plane(..).unwrap()`
(line 174), `into_boundaries().pop().unwrap()` (lines 184-186),
`Solid::new` (line 188), `File::create(..).expect(..)` (line 189), the
`solid_to_stl` library pipeline of triangulation, mesh filters and
`stl::write(..).unwrap()` (lines 88-102, with `.error` modelling an abort
inside it), and `f.write(..).unwrap()` (line 191). -/
structure Externals where
  attachPlaneOk : Bool
  boundaryOk : Bool
  solidOk : Bool
  createOk : Bool
  stlOut : Except Unit (List UInt8)
  writeOk : Bool

/-- The tail of `main` from `builder::scaled` (line 169) to `f.write`
(line 191), given the root wire.  `builder::scaled` is a pure transform of
the wire and cannot abort.  The division `tip_chord / root_chord` (lines
179-180) is a total f64 division - for root_chord = 0 it yields infinity or
NaN and does not trap - modelled by the (also total) rational division into
an unused binding; no control flow depends on configuration values.
`File::create` (line 189) runs before its argument expression
`solid_to_stl(solid, 0.05)` (line 191) is evaluated, so the output file
exists from the `fileCreated` event on. -/
def afterWire (ext : Externals) (cfg : Config) (wire : Wire) : List Event × Option RunErr :=
  let evs1 := [Event.wireBuilt, Event.profileScaled]
  if ext.attachPlaneOk then
    let evs2 := evs1 ++ [Event.planeAttached]
    let _scale := cfg.tipChord / cfg.rootChord
    match sweepSurfaces wire with
    | .error _ => (evs2, some .sweepUnreachable)
    | .ok _ =>
      if ext.boundaryOk then
        let evs3 := evs2 ++ [Event.sweepDone]
        if ext.solidOk then
          let evs4 := evs3 ++ [Event.solidBuilt]
          if ext.createOk then
            let evs5 := evs4 ++ [Event.fileCreated]
            match ext.stlOut with
            | .error _ => (evs5, some .tessellateFailed)
            | .ok _ =>
              let evs6 := evs5 ++ [Event.stlBytesReady]
              if ext.writeOk then (evs6 ++ [Event.bytesWritten], none)
              else (evs6, some .writeFailed)
          else (evs4, some .createFileFailed)
        else (evs3, some .solidNewFailed)
      else (evs2, some .popBoundaryFailed)
  else (evs1, some .attachPlaneFailed)

/-- The control flow of `main` (main.rs lines 126-192): parse the data lines
into points, build the wire from the anchored line path, then run the
geometry/serialization tail.  Returns the ordered construction events and
the abort, if any. -/
def runMain (pn : List Char → Option UInt64) (ext : Externals) (cfg : Config)
    (lines : List (List Char)) : List Event × Option RunErr :=
  match collectPoints pn 0 lines with
  | .error e => ([], some (.lineParse e))
  | .ok pts =>
    match wireFromPath (lineToSegs anchor pts) with
    | .error e => ([], some (.wireIndex e))
    | .ok wire => afterWire ext cfg wire

/-- An IEEE-754 float32 value, by bit pattern; `solid_to_stl` serializes
f32 components. -/
structure F32 where
  bits : UInt32
  deriving DecidableEq

/-- A 3-component float32 vector of the mesh (position or normal). -/
structure V3F where
  x : F32
  y : F32
  z : F32
  deriving DecidableEq

/-- One triangle record of the binary STL body: normal plus three vertex
positions. -/
structure STLFacet where
  normal : V3F
  v0 : V3F
  v1 : V3F
  v2 : V3F
  deriving DecidableEq

/-- The triangle mesh handed to the STL writer. -/
structure STLMesh where
  facets : List STLFacet
  deriving DecidableEq

/-- The four little-endian bytes of a 32-bit count or bit pattern. -/
def u32le (n : Nat) : List UInt8 :=
  [UInt8.ofNat n, UInt8.ofNat (n / 256), UInt8.ofNat (n / 65536), UInt8.ofNat (n / 16777216)]

/-- A float32 serialized as its four little-endian bytes. -/
def f32le (f : F32) : List UInt8 := u32le f.bits.toNat

/-- A vector serialized as x, y, z. -/
def v3le (v : V3F) : List UInt8 := f32le v.x ++ f32le v.y ++ f32le v.z

/-- One facet record: normal, three vertices, and the 2-byte attribute
padding field - 50 bytes. -/
def facetBytes (f : STLFacet) : List UInt8 :=
  v3le f.normal ++ v3le f.v0 ++ v3le f.v1 ++ v3le f.v2 ++ [0, 0]

/-- The 80-byte STL header; its content is unconstrained, modelled as
zeros. -/
def stlHeader : List UInt8 := List.replicate 80 0

/-- The binary STL writer invoked by `solid_to_stl` (main.rs line 99,
`truck_polymesh::stl::write` with `STLType::Binary`), which emits the
standard binary STL layout: the 80-byte header, the little-endian u32
facet count, then one 50-byte record per facet. -/
def stlWriteBinary (m : STLMesh) : List UInt8 :=
  stlHeader ++ u32le m.facets.length ++ (m.facets.map facetBytes).flatten

/-- A 3D point with exact rational coordinates, for the tip-transform
arithmetic of main.rs lines 175-186.  The divergence instance below uses
only dyadic rationals, on which every f64 operation involved is exact, so
the rational model computes exactly what the f64 code computes. -/
structure P3Q where
  x : ℚ
  y : ℚ
  z : ℚ
  deriving DecidableEq

/-- A cgmath `Matrix4` over exact rationals, fields row-major (`mRC`). -/
structure Mat4 where
  m00 : ℚ
  m01 : ℚ
  m02 : ℚ
  m03 : ℚ
  m10 : ℚ
  m11 : ℚ
  m12 : ℚ
  m13 : ℚ
  m20 : ℚ
  m21 : ℚ
  m22 : ℚ
  m23 : ℚ
  m30 : ℚ
  m31 : ℚ
  m32 : ℚ
  m33 : ℚ
  deriving DecidableEq

/-- cgmath matrix addition: elementwise.  This is the `+` of main.rs line
182 - addition, not composition. -/
def matAdd (a b : Mat4) : Mat4 :=
  ⟨a.m00 + b.m00, a.m01 + b.m01, a.m02 + b.m02, a.m03 + b.m03,
   a.m10 + b.m10, a.m11 + b.m11, a.m12 + b.m12, a.m13 + b.m13,
   a.m20 + b.m20, a.m21 + b.m21, a.m22 + b.m22, a.m23 + b.m23,
   a.m30 + b.m30, a.m31 + b.m31, a.m32 + b.m32, a.m33 + b.m33⟩

/-- cgmath `Matrix4::from_nonuniform_scale(sx, sy, sz)`. -/
def fromNonuniformScale (sx sy sz : ℚ) : Mat4 :=
  ⟨sx, 0, 0, 0,
   0, sy, 0, 0,
   0, 0, sz, 0,
   0, 0, 0, 1⟩

/-- cgmath `Matrix4::from_translation((tx, ty, tz))`. -/
def fromTranslationM (tx ty tz : ℚ) : Mat4 :=
  ⟨1, 0, 0, tx,
   0, 1, 0, ty,
   0, 0, 1, tz,
   0, 0, 0, 1⟩

/-- cgmath `Transform::transform_point` for `Matrix4`:
`Point3::from_homogeneous(m * point.to_homogeneous())`, which divides the
first three homogeneous components by the fourth. -/
def transformPoint (m : Mat4) (p : P3Q) : P3Q :=
  let hw := m.m30 * p.x + m.m31 * p.y + m.m32 * p.z + m.m33
  ⟨(m.m00 * p.x + m.m01 * p.y + m.m02 * p.z + m.m03) / hw,
   (m.m10 * p.x + m.m11 * p.y + m.m12 * p.z + m.m13) / hw,
   (m.m20 * p.x + m.m21 * p.y + m.m22 * p.z + m.m23) / hw⟩

/-- The tip matrix built at main.rs lines 178-182:
`Matrix4::from_nonuniform_scale(tip/root, tip/root, 1.)
 + Matrix4::from_translation(sweep * unit_x())` - elementwise matrix
addition of the scale and translation matrices. -/
def tipTransform (cfg : Config) : Mat4 :=
  matAdd
    (fromNonuniformScale (cfg.tipChord / cfg.rootChord) (cfg.tipChord / cfg.rootChord) 1)
    (fromTranslationM cfg.sweep 0 0)

/-- The point rule of `extrude_then_transform` (main.rs line 111) as `main`
instantiates it: translate by `extrude = semi_wingspan * unit_z()` (line
177), then apply the tip matrix.  This is the map the sweep applies to every
vertex of the root profile to obtain the tip copy. -/
def tipPoint (cfg : Config) (p : P3Q) : P3Q :=
  transformPoint (tipTransform cfg) (transformPoint (fromTranslationM 0 0 cfg.semiWingspan) p)

/-- Modelled from the spec: the tip transform as the spec states it - the
nonuniform planar scale by (Ct/Cr, Ct/Cr, 1) composed with the translation
by (sweep, 0, semiWingspan) - for comparison with `tipPoint`. -/
def specTipPoint (cfg : Config) (p : P3Q) : P3Q :=
  ⟨(cfg.tipChord / cfg.rootChord) * p.x + cfg.sweep,
   (cfg.tipChord / cfg.rootChord) * p.y,
   p.z + cfg.semiWingspan⟩

/-- The configuration of the spec's Scenario 1: rootChord 1, tipChord 0.5,
semiWingspan 2, sweep 0 (field order: semiWingspan, sweep, rootChord,
tipChord). -/
def cfgC1 : Config := ⟨2, 0, 1, 1/2⟩

/-- A one-segment path for exercising the closure theorem. -/
def segsC5 : List PathSeg := [.line ⟨1, 0⟩ ⟨2, 0⟩]

/-- The wire `wire_from_path` builds from `segsC5`: the segment edge plus
the synthetic closing line from its back vertex to its front vertex. -/
def wireC5 : Wire :=
  [⟨⟨1, ⟨1, 0⟩⟩, ⟨0, ⟨2, 0⟩⟩, .line⟩, ⟨⟨0, ⟨2, 0⟩⟩, ⟨1, ⟨1, 0⟩⟩, .line⟩]

/-- A dedup table holding one cached vertex, for exercising vertex reuse. -/
def sC6 : VertTable := ⟨[(⟨5, 5⟩, ⟨3, ⟨5, 5⟩⟩)], 4⟩

/-- A two-segment path that revisits its first point. -/
def segsC6 : List PathSeg := [.line ⟨5, 5⟩ ⟨7, 7⟩, .line ⟨7, 7⟩ ⟨5, 5⟩]

/-- The wire built from `segsC6`; it is naturally closed, and the revisited
point (5,5) is represented by the single vertex with id 1 in both edges. -/
def wireC6 : Wire :=
  [⟨⟨1, ⟨5, 5⟩⟩, ⟨0, ⟨7, 7⟩⟩, .line⟩, ⟨⟨0, ⟨7, 7⟩⟩, ⟨1, ⟨5, 5⟩⟩, .line⟩]

/-- A concrete instance of the external f64 parser: it accepts exactly the
pieces `1.0` and `2.0`, returning their f64 bit patterns. -/
def pnEx : List Char → Option UInt64 := fun s =>
  if s = ['1', '.', '0'] then some 0x3FF0000000000000
  else if s = ['2', '.', '0'] then some 0x4000000000000000
  else none

/-- A minimal airfoil file: two header lines (skipped unconditionally) and
one data line holding two decimal numbers. -/
def linesEx : List (List Char) :=
  [['h'], ['h'], ['1', '.', '0', ' ', '2', '.', '0']]

/-- A configuration with rootChord = 1 (well-formed). -/
def cfgEx : Config := ⟨2, 0, 1, 1/2⟩

/-- A configuration with rootChord = 0. -/
def cfgZ : Config := ⟨2, 0, 0, 1⟩

/-- External operations all succeeding, with an empty byte output. -/
def extAllOk : Externals := ⟨true, true, true, true, .ok [], true⟩

/-- External operations where the `solid_to_stl` pipeline aborts (e.g. a
tessellation failure), everything before it succeeding. -/
def extTess : Externals := ⟨true, true, true, true, .error (), true⟩

/-- A one-facet mesh of zero vectors. -/
def meshC9 : STLMesh :=
  ⟨[⟨⟨⟨0⟩, ⟨0⟩, ⟨0⟩⟩, ⟨⟨0⟩, ⟨0⟩, ⟨0⟩⟩, ⟨⟨0⟩, ⟨0⟩, ⟨0⟩⟩, ⟨⟨0⟩, ⟨0⟩, ⟨0⟩⟩⟩]⟩

/-- A concrete instance of the external f64 parser for the diamond-profile
pieces: it accepts exactly 0.0, 0.1 and -0.1, returning their f64 bit
patterns (0.1 has bits 0x3FB999999999999A, -0.1 the same with the sign bit
set). -/
def pnDia : List Char → Option UInt64 := fun s =>
  if s = ['0', '.', '0'] then some 0
  else if s = ['0', '.', '1'] then some 0x3FB999999999999A
  else if s = ['-', '0', '.', '1'] then some 0xBFB999999999999A
  else none

/-- The diamond profile of the spec's Scenario 1 as an airfoil file: two
header lines (skipped unconditionally), then the data points (0, 0.1) and
(0, -0.1); together with the implicit trailing-edge anchor (1, 0) this is a
valid closed 3-point profile. -/
def linesDia : List (List Char) :=
  [['d'], ['d'],
   ['0', '.', '0', ' ', '0', '.', '1'],
   ['0', '.', '0', ' ', '-', '0', '.', '1']]

/-- The two data-derived points of `linesDia`, as bit-pattern pairs. -/
def ptsDia : List P2 :=
  [⟨0, 0x3FB999999999999A⟩, ⟨0, 0xBFB999999999999A⟩]

theorem buildEdges_length (segs : List PathSeg) (st : VertTable × Option Vtx) :
    (buildEdges segs st).1.length = segs.length := by
  induction segs generalizing st with
  | nil => rfl
  | cons seg rest ih => simp [buildEdges, ih]

theorem wireFromPath_ne_nil_ok (segs : List PathSeg) (h : segs ≠ []) :
    ∃ w, wireFromPath segs = .ok w := by
  unfold wireFromPath
  have hlen : (buildEdges segs initSt).1.length = segs.length := buildEdges_length segs initSt
  match hE : (buildEdges segs initSt).1 with
  | [] =>
    rw [hE] at hlen
    exact absurd (List.length_eq_zero.mp hlen.symm) h
  | e0 :: rest =>
    unfold wireClose
    by_cases hc : e0.front = ((e0 :: rest).getLast (List.cons_ne_nil e0 rest)).back
    · exact ⟨e0 :: rest, by simp [hc]⟩
    · exact ⟨(e0 :: rest) ++ [⟨((e0 :: rest).getLast (List.cons_ne_nil e0 rest)).back, e0.front, .line⟩], by simp [hc]⟩

theorem vertLookup_mem {t : List (P2 × Vtx)} {k : P2} {v : Vtx}
    (h : vertLookup t k = some v) : (k, v) ∈ t := by
  induction t with
  | nil => simp [vertLookup] at h
  | cons kv rest ih =>
    obtain ⟨k0, v0⟩ := kv
    unfold vertLookup at h
    by_cases he : k0 = k
    · rw [if_pos he] at h
      injection h with h
      subst he
      subst h
      exact List.mem_cons_self _ _
    · rw [if_neg he] at h
      exact List.mem_cons_of_mem _ (ih h)

theorem vertLookup_none {t : List (P2 × Vtx)} {k : P2}
    (h : vertLookup t k = none) : ∀ v, (k, v) ∉ t := by
  induction t with
  | nil => simp
  | cons kv rest ih =>
    obtain ⟨k0, v0⟩ := kv
    unfold vertLookup at h
    by_cases he : k0 = k
    · rw [if_pos he] at h
      exact absurd h (by simp)
    · rw [if_neg he] at h
      intro v hv
      rcases List.mem_cons.mp hv with h1 | h1
      · exact he (congrArg Prod.fst h1.symm)
      · exact ih h v h1

theorem assoc_unique {t : List (P2 × Vtx)} (hnd : (t.map Prod.fst).Nodup)
    {k : P2} {v1 v2 : Vtx} (h1 : (k, v1) ∈ t) (h2 : (k, v2) ∈ t) : v1 = v2 := by
  induction t with
  | nil => simp at h1
  | cons kv rest ih =>
    obtain ⟨k0, v0⟩ := kv
    rw [List.map_cons, List.nodup_cons] at hnd
    rcases List.mem_cons.mp h1 with g1 | g1 <;> rcases List.mem_cons.mp h2 with g2 | g2
    · rw [← g1] at g2
      exact (Prod.mk.injEq _ _ _ _ ▸ g2.symm).2
    · exfalso
      apply hnd.1
      have hk : k0 = k := congrArg Prod.fst g1.symm
      rw [hk]
      exact List.mem_map.mpr ⟨(k, v2), g2, rfl⟩
    · exfalso
      apply hnd.1
      have hk : k0 = k := congrArg Prod.fst g2.symm
      rw [hk]
      exact List.mem_map.mpr ⟨(k, v1), g1, rfl⟩
    · exact ih hnd.2 g1 g2

theorem vert_wf {s : VertTable} {p : P2} (h : TblWF s.table) :
    TblWF (vert s p).2.table := by
  unfold vert
  match hl : vertLookup s.table p with
  | some v => exact h
  | none =>
    constructor
    · rw [List.map_cons, List.nodup_cons]
      refine ⟨?_, h.1⟩
      intro hmem
      rcases List.mem_map.mp hmem with ⟨⟨k0, v0⟩, hkv, hfst⟩
      have hk : k0 = p := hfst
      subst hk
      exact vertLookup_none hl v0 hkv
    · intro kv hkv
      rcases List.mem_cons.mp hkv with h1 | h1
      · rw [h1]
      · exact h.2 kv h1

theorem vert_pt {s : VertTable} {p : P2} (h : TblWF s.table) :
    ((vert s p).1).pt = p := by
  unfold vert
  match hl : vertLookup s.table p with
  | some v => exact h.2 (p, v) (vertLookup_mem hl)
  | none => rfl

theorem vert_mem {s : VertTable} {p : P2} (h : TblWF s.table) :
    (((vert s p).1).pt, (vert s p).1) ∈ (vert s p).2.table := by
  have hpt : ((vert s p).1).pt = p := vert_pt h
  rw [hpt]
  unfold vert
  match hl : vertLookup s.table p with
  | some v =>
    simpa using vertLookup_mem hl
  | none =>
    simp [vert, hl]

theorem vert_mono {s : VertTable} {p : P2} : s.table ⊆ (vert s p).2.table := by
  unfold vert
  match hl : vertLookup s.table p with
  | some v => exact fun a ha => ha
  | none => exact List.subset_cons_self _ _

theorem edgeStep_spec (s : VertTable) (lastV : Option Vtx) (pEnd p0 : P2)
    (h : StWF (s, lastV)) :
    StWF ((vert (vert s pEnd).2 p0).2, some (vert s pEnd).1) ∧
    s.table ⊆ (vert (vert s pEnd).2 p0).2.table ∧
    ((lastV.getD (vert (vert s pEnd).2 p0).1).pt, lastV.getD (vert (vert s pEnd).2 p0).1) ∈
      (vert (vert s pEnd).2 p0).2.table ∧
    (((vert s pEnd).1).pt, (vert s pEnd).1) ∈ (vert (vert s pEnd).2 p0).2.table := by
  have hwf1 : TblWF (vert s pEnd).2.table := vert_wf h.1
  have hwf2 : TblWF (vert (vert s pEnd).2 p0).2.table := vert_wf hwf1
  have hmono : s.table ⊆ (vert (vert s pEnd).2 p0).2.table :=
    fun a ha => vert_mono (vert_mono ha)
  have hend : (((vert s pEnd).1).pt, (vert s pEnd).1) ∈ (vert (vert s pEnd).2 p0).2.table :=
    vert_mono (vert_mem h.1)
  refine ⟨⟨hwf2, ?_⟩, hmono, ?_, hend⟩
  · intro v hv
    rw [Option.some.injEq] at hv
    rw [← hv]
    exact hend
  · match lastV with
    | some v => exact hmono (h.2 v rfl)
    | none =>
      simp only [Option.getD_none]
      exact vert_mem hwf1

theorem segStep_spec (st : VertTable × Option Vtx) (seg : PathSeg) (h : StWF st) :
    StWF (segStep st seg).2 ∧
    st.1.table ⊆ (segStep st seg).2.1.table ∧
    (((segStep st seg).1.front).pt, (segStep st seg).1.front) ∈ (segStep st seg).2.1.table ∧
    (((segStep st seg).1.back).pt, (segStep st seg).1.back) ∈ (segStep st seg).2.1.table := by
  have h' : StWF (st.1, st.2) := h
  cases seg with
  | line p0 p1 => exact edgeStep_spec st.1 st.2 p1 p0 h'
  | quad p0 p1 p2 => exact edgeStep_spec st.1 st.2 p2 p0 h'
  | cubic p0 p1 p2 p3 => exact edgeStep_spec st.1 st.2 p3 p0 h'

theorem buildEdges_spec (segs : List PathSeg) (st : VertTable × Option Vtx) (h : StWF st) :
    StWF (buildEdges segs st).2 ∧
    st.1.table ⊆ (buildEdges segs st).2.1.table ∧
    ∀ e ∈ (buildEdges segs st).1,
      ((e.front).pt, e.front) ∈ (buildEdges segs st).2.1.table ∧
      ((e.back).pt, e.back) ∈ (buildEdges segs st).2.1.table := by
  induction segs generalizing st with
  | nil => exact ⟨h, fun a ha => ha, by simp [buildEdges]⟩
  | cons seg rest ih =>
    obtain ⟨h1, h2, h3, h4⟩ := segStep_spec st seg h
    obtain ⟨g1, g2, g3⟩ := ih (segStep st seg).2 h1
    refine ⟨g1, fun a ha => g2 (h2 ha), ?_⟩
    intro e he
    simp only [buildEdges, List.mem_cons] at he
    rcases he with he | he
    · subst he
      exact ⟨g2 h3, g2 h4⟩
    · exact g3 e he

theorem initSt_wf : StWF initSt := by
  constructor
  · exact ⟨List.nodup_nil, by simp [initSt]⟩
  · intro v hv
    simp [initSt] at hv

theorem wireFromPath_cases (segs : List PathSeg) (w : Wire)
    (h : wireFromPath segs = .ok w) :
    ∃ e0 rest, (buildEdges segs initSt).1 = e0 :: rest ∧
      ∃ eL, (e0 :: rest).getLast? = some eL ∧
        ((e0.front = eL.back ∧ w = e0 :: rest) ∨
         (e0.front ≠ eL.back ∧ w = (e0 :: rest) ++ [⟨eL.back, e0.front, .line⟩])) := by
  unfold wireFromPath at h
  match hE : (buildEdges segs initSt).1 with
  | [] =>
    rw [hE] at h
    exact absurd h (by simp [wireClose])
  | e0 :: rest =>
    rw [hE] at h
    refine ⟨e0, rest, rfl, (e0 :: rest).getLast (List.cons_ne_nil e0 rest), ?_, ?_⟩
    · exact (List.getLast?_eq_getLast _ _)
    · simp only [wireClose] at h
      by_cases hc : e0.front = ((e0 :: rest).getLast (List.cons_ne_nil e0 rest)).back
      · rw [if_pos hc] at h
        injection h with h
        exact Or.inl ⟨hc, h.symm⟩
      · rw [if_neg hc] at h
        injection h with h
        exact Or.inr ⟨hc, h.symm⟩

theorem mem_wireVertices {v : Vtx} {w : Wire} :
    v ∈ wireVertices w ↔ ∃ e ∈ w, v = e.front ∨ v = e.back := by
  simp only [wireVertices, List.mem_flatten, List.mem_map]
  constructor
  · rintro ⟨l, ⟨e, he, rfl⟩, hv⟩
    rcases List.mem_cons.mp hv with h1 | h1
    · exact ⟨e, he, Or.inl h1⟩
    · rcases List.mem_cons.mp h1 with h2 | h2
      · exact ⟨e, he, Or.inr h2⟩
      · simp at h2
  · rintro ⟨e, he, hv⟩
    refine ⟨[e.front, e.back], ⟨e, he, rfl⟩, ?_⟩
    rcases hv with h1 | h1
    · rw [h1]; exact List.mem_cons_self _ _
    · rw [h1]; exact List.mem_cons_of_mem _ (List.mem_cons_self _ _)

theorem wire_vertices_cached (segs : List PathSeg) (w : Wire)
    (h : wireFromPath segs = .ok w) :
    TblWF (buildEdges segs initSt).2.1.table ∧
    ∀ v ∈ wireVertices w, (v.pt, v) ∈ (buildEdges segs initSt).2.1.table := by
  obtain ⟨hwf, _, hmem⟩ := buildEdges_spec segs initSt initSt_wf
  obtain ⟨e0, rest, hE, eL, hL, hcase⟩ := wireFromPath_cases segs w h
  have hmemE : ∀ e ∈ e0 :: rest,
      ((e.front).pt, e.front) ∈ (buildEdges segs initSt).2.1.table ∧
      ((e.back).pt, e.back) ∈ (buildEdges segs initSt).2.1.table := by
    intro e he
    exact hmem e (hE ▸ he)
  have heL : eL ∈ e0 :: rest := by
    have := List.getLast?_eq_getLast (e0 :: rest) (List.cons_ne_nil e0 rest)
    rw [this] at hL
    injection hL with hL
    rw [← hL]
    exact List.getLast_mem _
  refine ⟨hwf.1, ?_⟩
  intro v hv
  rcases hcase with ⟨_, rfl⟩ | ⟨_, rfl⟩
  · obtain ⟨e, he, hfb⟩ := mem_wireVertices.mp hv
    rcases hfb with rfl | rfl
    · exact (hmemE e he).1
    · exact (hmemE e he).2
  · obtain ⟨e, he, hfb⟩ := mem_wireVertices.mp hv
    rcases List.mem_append.mp he with he1 | he1
    · rcases hfb with rfl | rfl
      · exact (hmemE e he1).1
      · exact (hmemE e he1).2
    · have : e = (⟨eL.back, e0.front, .line⟩ : Edge) := by
        rcases List.mem_cons.mp he1 with h1 | h1
        · exact h1
        · simp at h1
      subst this
      rcases hfb with rfl | rfl
      · exact (hmemE eL heL).2
      · exact (hmemE e0 (List.mem_cons_self _ _)).1

/-- C5: every wire returned by the wire builder is closed - its first vertex
equals its last vertex (the same deduplicated vertex object, hence equal
dedup keys) - and the wire is the built edge list itself when that list is
already closed, else the edge list with exactly one synthetic closing line
edge from the terminal vertex to the initial vertex appended. -/
theorem wire_builder_closed (segs : List PathSeg) (w : Wire)
    (h : wireFromPath segs = .ok w) :
    (∃ v, wireFront w = some v ∧ wireBack w = some v) ∧
    (∃ e0 rest eL, (buildEdges segs initSt).1 = e0 :: rest ∧
      (e0 :: rest).getLast? = some eL ∧
      ((e0.front = eL.back ∧ w = e0 :: rest) ∨
       (e0.front ≠ eL.back ∧ w = (e0 :: rest) ++ [⟨eL.back, e0.front, EdgeCurve.line⟩]))) := by
  obtain ⟨e0, rest, hE, eL, hL, hcase⟩ := wireFromPath_cases segs w h
  refine ⟨?_, e0, rest, eL, hE, hL, hcase⟩
  rcases hcase with ⟨hc, rfl⟩ | ⟨hc, rfl⟩
  · refine ⟨e0.front, rfl, ?_⟩
    unfold wireBack
    rw [hL, hc]
    rfl
  · refine ⟨e0.front, rfl, ?_⟩
    unfold wireBack
    rw [List.getLast?_concat]
    rfl

/-- Witness for C5 at a concrete one-segment path. -/
theorem wire_builder_closed_witness :
    ∃ v, wireFront wireC5 = some v ∧ wireBack wireC5 = some v :=
  (wire_builder_closed segsC5 wireC5 rfl).1

/-- C6: vertex dedup is by exact bit pattern of the coordinates: a point
whose bit-pattern key is cached reuses the cached vertex object and leaves
the table unchanged, and in any wire the builder returns, two vertices
carrying bit-identical coordinates are one and the same vertex (in
particular the closing pair is the same object, so no two distinct vertices
of the wire share a bit pattern at all). -/
theorem wire_vertex_dedup :
    (∀ (s : VertTable) (p : P2) (v : Vtx), vertLookup s.table p = some v → vert s p = (v, s)) ∧
    (∀ (segs : List PathSeg) (w : Wire), wireFromPath segs = .ok w →
      ∀ v1 ∈ wireVertices w, ∀ v2 ∈ wireVertices w, v1.pt = v2.pt → v1 = v2) := by
  constructor
  · intro s p v hl
    unfold vert
    rw [hl]
  · intro segs w h v1 h1 v2 h2 hpt
    obtain ⟨hwf, hcache⟩ := wire_vertices_cached segs w h
    have m1 := hcache v1 h1
    have m2 := hcache v2 h2
    rw [hpt] at m1
    exact assoc_unique hwf.1 m1 m2

/-- Witness for C6: reuse of a cached vertex at a concrete table, and
dedup-uniqueness on the concrete wire built from a path revisiting a
point. -/
theorem wire_vertex_dedup_witness :
    vert sC6 ⟨5, 5⟩ = (⟨3, ⟨5, 5⟩⟩, sC6) ∧
    (⟨1, ⟨5, 5⟩⟩ : Vtx) = ⟨1, ⟨5, 5⟩⟩ := by
  constructor
  · exact wire_vertex_dedup.1 sC6 ⟨5, 5⟩ ⟨3, ⟨5, 5⟩⟩ rfl
  · exact wire_vertex_dedup.2 segsC6 wireC6 rfl ⟨1, ⟨5, 5⟩⟩ (by decide) ⟨1, ⟨5, 5⟩⟩ (by decide) rfl

/-- C7 counterexample: no ProfileError exists at the wire-builder boundary.
An input yielding no segments makes `wire_from_path` abort with the
index-out-of-bounds of `edges[0]`, and a two-point profile (the anchor plus
one data point, fewer than 3 points) builds a degenerate wire successfully
instead of failing. -/
theorem short_profile_no_profile_error :
    wireFromPath [] = .error .indexOutOfBounds ∧
    wireFromPath [.line anchor ⟨0, 0⟩] =
      .ok [⟨⟨1, anchor⟩, ⟨0, ⟨0, 0⟩⟩, .line⟩, ⟨⟨0, ⟨0, 0⟩⟩, ⟨1, anchor⟩, .line⟩] := by
  constructor
  · rfl
  · rfl

/-- C7 amended: `wire_from_path` aborts - with the index-out-of-bounds
abort of `edges[0]`, its only failure mode - exactly on an empty segment
list; any nonempty segment list, in particular a profile with fewer than 3
points but at least one segment, produces a wire without error. -/
theorem wire_builder_failure_iff_empty (segs : List PathSeg) :
    (wireFromPath segs = .error .indexOutOfBounds ↔ segs = []) ∧
    (segs ≠ [] → ∃ w, wireFromPath segs = .ok w) := by
  constructor
  · constructor
    · intro h
      by_contra hne
      obtain ⟨w, hw⟩ := wireFromPath_ne_nil_ok segs hne
      rw [hw] at h
      exact absurd h (by simp)
    · intro h
      subst h
      rfl
  · exact wireFromPath_ne_nil_ok segs

/-- Witness for C7: the amended statement applied at the empty path and at
a concrete one-segment path. -/
theorem wire_builder_failure_iff_empty_witness :
    wireFromPath [] = .error .indexOutOfBounds ∧
    ∃ w, wireFromPath [PathSeg.line ⟨3, 0⟩ ⟨4, 0⟩] = .ok w := by
  constructor
  · exact (wire_builder_failure_iff_empty []).1.mpr rfl
  · exact (wire_builder_failure_iff_empty [PathSeg.line ⟨3, 0⟩ ⟨4, 0⟩]).2 (by simp)

/-- C3 counterexample: a line paired against a non-line curve does not fail
with a clean GeometryError result - no such error kind exists in the
program - but crashes through the `unreachable!()` arm of the
connecting-surface rule. -/
theorem mixed_pair_hits_unreachable :
    connectCurves .line (.bezier [⟨0, 0⟩]) = .error .unreachableBranch := rfl

/-- C3 amended: whenever the two curves of a sweep pair are not both lines
(in particular whenever their variants differ), the connecting-surface rule
of `extrude_then_transform` aborts through the `unreachable!()` branch - a
process abort, not a GeometryError result. -/
theorem connect_curves_abort_iff_not_lines (c0 c1 : EdgeCurve) :
    connectCurves c0 c1 = .error .unreachableBranch ↔ ¬(c0 = .line ∧ c1 = .line) := by
  cases c0 <;> cases c1 <;> simp [connectCurves]

/-- Witness for C3 at a concrete mixed pair. -/
theorem connect_curves_abort_witness :
    connectCurves (.bezier [⟨1, 1⟩]) .line = .error .unreachableBranch :=
  (connect_curves_abort_iff_not_lines (.bezier [⟨1, 1⟩]) .line).mpr (by simp)

theorem lineToSegs_ne_nil (start : P2) (pts : List P2) (h : pts ≠ []) :
    lineToSegs start pts ≠ [] := by
  cases pts with
  | nil => exact absurd rfl h
  | cons p rest => simp [lineToSegs]

theorem afterWire_wireBuilt (ext : Externals) (cfg : Config) (wire : Wire) :
    Event.wireBuilt ∈ (afterWire ext cfg wire).1 := by
  unfold afterWire
  repeat' split
  all_goals simp

/-- C2 amended: with rootChord = 0 (indeed with any configuration - `main`
never validates it), a run on a well-formed profile builds the wire: no
DomainError exists, the wire is constructed before the chord values are
used, and the f64 chord division is total, so nothing aborts at it. -/
theorem rootchord_zero_builds_wire (pn : List Char → Option UInt64)
    (ext : Externals) (cfg : Config) (lines : List (List Char)) (pts : List P2)
    (hzero : cfg.rootChord = 0)
    (hp : collectPoints pn 0 lines = .ok pts) (hne : pts ≠ []) :
    Event.wireBuilt ∈ (runMain pn ext cfg lines).1 := by
  unfold runMain
  split
  · rename_i e he
    rw [hp] at he
    exact absurd he (by simp)
  · rename_i pts2 hpts2
    rw [hp] at hpts2
    injection hpts2 with h2
    subst h2
    split
    · rename_i e he
      obtain ⟨w, hw⟩ := wireFromPath_ne_nil_ok _ (lineToSegs_ne_nil anchor pts hne)
      rw [hw] at he
      exact absurd he (by simp)
    · rename_i wire hwire
      exact afterWire_wireBuilt ext cfg wire

/-- Witness for C2 amended at the zero-rootChord configuration with the
valid 3-point diamond profile of the spec's Scenario 1. -/
theorem rootchord_zero_builds_wire_witness :
    Event.wireBuilt ∈ (runMain pnDia extAllOk cfgZ linesDia).1 :=
  rootchord_zero_builds_wire pnDia extAllOk cfgZ linesDia ptsDia rfl rfl (by simp [ptsDia])

/-- C2 counterexample: at rootChord = 0 with a valid profile - the spec's
Scenario 1 diamond, whose anchor plus two data points form a closed 3-point
loop - the run does not abort with a DomainError before geometry is built:
the wire is constructed (RunErr, the exhaustive abort type of the program,
has no DomainError at all). -/
theorem rootchord_zero_counterexample :
    cfgZ.rootChord = 0 ∧ Event.wireBuilt ∈ (runMain pnDia extAllOk cfgZ linesDia).1 := by
  constructor
  · rfl
  · decide

/-- C4 amended: an abort during parsing, wire building, plane attachment,
sweeping, shell extraction, solid construction, or file creation happens
before the output file is created, but `File::create` runs before
`solid_to_stl` is evaluated, so an abort during tessellation/serialization
or the final write leaves an (empty) file at the configured output path. -/
theorem file_exists_iff_late_abort (pn : List Char → Option UInt64)
    (ext : Externals) (cfg : Config) (lines : List (List Char))
    (evs : List Event) (e : RunErr)
    (h : runMain pn ext cfg lines = (evs, some e)) :
    Event.fileCreated ∈ evs ↔ (e = RunErr.tessellateFailed ∨ e = RunErr.writeFailed) := by
  unfold runMain afterWire at h
  repeat' split at h
  all_goals
    first
    | (injection h with h1 h2
       subst h1
       injection h2 with h2
       subst h2
       simp)
    | (injection h with h1 h2
       exact absurd h2 (by simp))

/-- Witness for C4 amended: the failing-tessellation run, where the file
was created before the abort. -/
theorem file_exists_iff_late_abort_witness :
    Event.fileCreated ∈ (runMain pnEx extTess cfgEx linesEx).1 := by
  have h := file_exists_iff_late_abort pnEx extTess cfgEx linesEx
    (runMain pnEx extTess cfgEx linesEx).1 RunErr.tessellateFailed (by rfl)
  exact h.mpr (Or.inl rfl)

/-- C4 counterexample: a run that fails at the tessellation/serialization
stage aborts, yet the output file was already created - contradicting the
claim that on error no output file exists at the configured path. -/
theorem late_abort_leaves_file :
    (runMain pnEx extTess cfgEx linesEx).2 = some RunErr.tessellateFailed ∧
    Event.fileCreated ∈ (runMain pnEx extTess cfgEx linesEx).1 := by
  constructor
  · rfl
  · decide

/-- C10: the first two input lines are skipped unconditionally - parsing
`a :: b :: rest` equals parsing `rest` with the enumeration already at
index 2, whatever `a` and `b` hold, so data points come only from the third
line onward - and a whitespace-separated token that fails the decimal parse
is silently discarded by the filter_map before the two-numbers-per-line
check sees the list. -/
theorem parse_skips_header_and_bad_tokens :
    (∀ (pn : List Char → Option UInt64) (a b : List Char) (rest : List (List Char)),
      collectPoints pn 0 (a :: b :: rest) = collectPoints pn 2 rest) ∧
    (∀ (pn : List Char → Option UInt64) (toks1 toks2 : List (List Char)) (junk : List Char),
      pn junk = none → junk ≠ [] →
      numbersOf pn (toks1 ++ junk :: toks2) = numbersOf pn (toks1 ++ toks2)) := by
  constructor
  · intro pn a b rest
    rfl
  · intro pn toks1 toks2 junk hnone hne
    unfold numbersOf
    rw [List.filterMap_append, List.filterMap_append]
    congr 1
    simp [List.filterMap_cons, hne, hnone]

/-- Witness for C10: two syntactically valid data lines placed as the two
header lines are skipped, and a concrete junk token is discarded. -/
theorem parse_skips_witness :
    pnEx ['z', 'z'] = none ∧
    collectPoints pnEx 0
        (['1', '.', '0', ' ', '2', '.', '0'] :: ['1', '.', '0', ' ', '2', '.', '0'] :: []) =
      collectPoints pnEx 2 [] ∧
    numbersOf pnEx ([['1', '.', '0']] ++ ['z', 'z'] :: [['2', '.', '0']]) =
      numbersOf pnEx ([['1', '.', '0']] ++ [['2', '.', '0']]) :=
  ⟨rfl,
   parse_skips_header_and_bad_tokens.1 pnEx _ _ _,
   parse_skips_header_and_bad_tokens.2 pnEx _ _ ['z', 'z'] rfl (by simp)⟩

theorem facetBytes_length (f : STLFacet) : (facetBytes f).length = 50 := rfl

theorem flatten_facetBytes_length (l : List STLFacet) :
    ((l.map facetBytes).flatten).length = 50 * l.length := by
  induction l with
  | nil => rfl
  | cons f rest ih =>
    simp only [List.map_cons, List.flatten_cons, List.length_append,
      facetBytes_length, ih, List.length_cons]
    ring

/-- C9: the serialized output consists of the 80-byte header, the 4-byte
little-endian facet count, and one fixed 50-byte record per facet (normal
and three vertices as float32 triples, plus 2 padding bytes); for a mesh
with a positive facet count N, the total size is 80 + 4 + 50 * N bytes with
N positive. -/
theorem stl_binary_layout (m : STLMesh) (h : 0 < m.facets.length) :
    (stlWriteBinary m).take 80 = stlHeader ∧
    ((stlWriteBinary m).drop 80).take 4 = u32le m.facets.length ∧
    (stlWriteBinary m).drop 84 = (m.facets.map facetBytes).flatten ∧
    (∀ f, (facetBytes f).length = 50) ∧
    (stlWriteBinary m).length = 80 + 4 + 50 * m.facets.length ∧
    0 < m.facets.length := by
  have hhdr : stlHeader.length = 80 := rfl
  have hcnt : (u32le m.facets.length).length = 4 := rfl
  have h1 : (stlWriteBinary m).take 80 = stlHeader := by
    unfold stlWriteBinary
    rw [List.append_assoc, ← hhdr, List.take_left]
  have h2 : (stlWriteBinary m).drop 80 =
      u32le m.facets.length ++ (m.facets.map facetBytes).flatten := by
    unfold stlWriteBinary
    rw [List.append_assoc, ← hhdr, List.drop_left]
  refine ⟨h1, ?_, ?_, fun f => facetBytes_length f, ?_, h⟩
  · rw [h2, ← hcnt, List.take_left]
  · have hd : ((stlWriteBinary m).drop 80).drop 4 = (stlWriteBinary m).drop 84 :=
      List.drop_drop 4 80 (stlWriteBinary m)
    rw [← hd, h2, ← hcnt, List.drop_left]
  · unfold stlWriteBinary
    rw [List.length_append, List.length_append, hhdr, hcnt,
      flatten_facetBytes_length]

/-- Witness for C9 at the concrete one-facet mesh: 134 bytes. -/
theorem stl_binary_layout_witness :
    0 < meshC9.facets.length ∧
    (stlWriteBinary meshC9).length = 80 + 4 + 50 * meshC9.facets.length :=
  ⟨by decide, (stl_binary_layout meshC9 (by decide)).2.2.2.2.1⟩

/-- C1: the tip transform of the code diverges from the spec's. The matrix
built at main.rs lines 178-182 is the elementwise SUM of the scale matrix
and the translation matrix, whose fourth row is (0,0,0,2), and cgmath's
transform_point divides by that w = 2.  With rootChord 1, tipChord 0.5,
sweep 0, semiWingspan 2, the root profile point (1,0,0) is carried to
(0.75, 0, 2), while the spec's scale-composed-with-translation transform
(and the CLI documentation of tip_chord and sweep) requires (0.5, 0, 2).
Every value involved is dyadic, so the f64 computation is exact and equals
this rational computation. -/
theorem tip_transform_divergence :
    tipPoint cfgC1 ⟨1, 0, 0⟩ = ⟨3/4, 0, 2⟩ ∧
    specTipPoint cfgC1 ⟨1, 0, 0⟩ = ⟨1/2, 0, 2⟩ ∧
    tipPoint cfgC1 ⟨1, 0, 0⟩ ≠ specTipPoint cfgC1 ⟨1, 0, 0⟩ := by
  have h1 : tipPoint cfgC1 ⟨1, 0, 0⟩ = ⟨3/4, 0, 2⟩ := by
    norm_num [tipPoint, tipTransform, matAdd, fromNonuniformScale, fromTranslationM,
      transformPoint, cfgC1, P3Q.mk.injEq]
  have h2 : specTipPoint cfgC1 ⟨1, 0, 0⟩ = ⟨1/2, 0, 2⟩ := by
    norm_num [specTipPoint, cfgC1, P3Q.mk.injEq]
  refine ⟨h1, h2, ?_⟩
  rw [h1, h2]
  intro heq
  rw [P3Q.mk.injEq] at heq
  norm_num at heq
